import Mathlib

/-!
Verification of the mt-mesonet-satellite update core.

This file shallowly embeds the two source files of the repository,
`mt_mesonet_satellite/db/Neo4jConn.py` and `mt_mesonet_satellite/update.py`,
and proves properties of the embedded definitions.

Modelling conventions:
* The graph store is a record of station names, observation nodes and
  OBSERVES edges.  Cypher `MERGE` on a fully specified property pattern is
  embedded as: match when a node/edge with exactly those property values is
  present, otherwise create; creation of an Observation whose `id` collides
  with an existing node violates the uniqueness constraint and aborts the
  (atomic) transaction with a `ConstraintError`.
* Floating point observation values and unit strings are carried opaquely as
  `String`; the code never computes with them.  Timestamps are `Int`
  (`toInteger($timestamp)`), calendar dates are `Nat` day numbers.
* `Submit.download` and `PendingTaskError` live in `Task.py`, which is not
  part of the sources; their observable behaviour is modelled from the spec
  (poll either succeeds = DONE, raises the still-pending signal, or raises a
  genuine failure).
-/

namespace MesonetSat

/-- One row of the table handed to `MesonetSatelliteDB.post`
(`to_db_format` output schema: station, id, platform, element, value, units,
timestamp). -/
structure Row where
  station : String
  id : String
  platform : String
  element : String
  value : String
  units : String
  timestamp : Int
deriving DecidableEq, Repr

/-- An Observation node as written by `_post_data` / `_init_db`:
`MERGE (o:Observation {id: $id, platform: $platform, element: $element,
value: $value, units: $units})` — exactly these five properties, nothing
else. -/
structure Obs where
  id : String
  platform : String
  element : String
  value : String
  units : String
deriving DecidableEq, Repr

/-- The Observation node pattern built from a row by `_post_data`. -/
def obsOf (r : Row) : Obs :=
  ⟨r.id, r.platform, r.element, r.value, r.units⟩

/-- An OBSERVES edge: `(s)-[:OBSERVES{timestamp: toInteger($timestamp)}]->(o)`. -/
structure Edge where
  station : String
  obs : Obs
  timestamp : Int
deriving DecidableEq, Repr

/-- The graph store state: Station nodes (unique by name), Observation nodes,
OBSERVES edges. -/
structure Store where
  stations : List String
  observations : List Obs
  edges : List Edge
deriving DecidableEq, Repr

def emptyStore : Store := ⟨[], [], []⟩

/-- The OBSERVES edge pattern built from a row by `_post_data`
(Neo4jConn.py line 76): it connects the row's station to the row's
observation node and carries the row's timestamp. -/
def edgeOf (r : Row) : Edge :=
  ⟨r.station, obsOf r, r.timestamp⟩

/-- `neo4j.exceptions.ConstraintError`: here, violation of the uniqueness
constraint on `Observation.id`. -/
inductive ConstraintError
  | uniqueId
deriving DecidableEq, Repr

/-- `MERGE (s:Station {name: $station})`: reuse the station node if present,
else create it. -/
def mergeStation (st : Store) (name : String) : Store :=
  if name ∈ st.stations then st
  else { st with stations := name :: st.stations }

/-- `MERGE (o:Observation {id, platform, element, value, units})` under the
uniqueness constraint on `id`: match when a node with exactly these property
values exists; otherwise create, which raises `ConstraintError` if some other
node already holds this `id`. -/
def mergeObservation (st : Store) (o : Obs) : Except ConstraintError Store :=
  if o ∈ st.observations then .ok st
  else if st.observations.any (fun o2 => o2.id == o.id) then .error .uniqueId
  else .ok { st with observations := o :: st.observations }

/-- `MERGE (s)-[:OBSERVES{timestamp: ...}]->(o)`: reuse the edge if an
identical one is present, else create it. -/
def mergeEdge (st : Store) (e : Edge) : Store :=
  if e ∈ st.edges then st
  else { st with edges := e :: st.edges }

/-- `MesonetSatelliteDB._post_data` (Neo4jConn.py lines 71-78): one atomic
transaction merging the station, the observation and the edge; a constraint
violation aborts the whole transaction, leaving the store unchanged. -/
def postData (st : Store) (r : Row) : Except ConstraintError Store :=
  match mergeObservation (mergeStation st r.station) (obsOf r) with
  | .error e => .error e
  | .ok st2 => .ok (mergeEdge st2 (edgeOf r))

/-- One iteration of the row loop in `MesonetSatelliteDB.post`
(Neo4jConn.py lines 63-69): run `_post_data`; on `ConstraintError`, print it
and continue with the store unchanged. -/
def step (st : Store) (r : Row) : Store :=
  match postData st r with
  | .ok st2 => st2
  | .error _ => st

/-- `MesonetSatelliteDB.post`: upsert each row in order, skipping rows that
hit the uniqueness constraint. -/
def post (st : Store) (rows : List Row) : Store :=
  rows.foldl step st

/-- The rows of a batch whose `_post_data` transaction raised
`ConstraintError` and were therefore skipped-and-logged by `post`
(the `print(e); continue` branch, Neo4jConn.py lines 67-69). -/
def collisions (st : Store) : List Row → List Row
  | [] => []
  | r :: rs =>
    match postData st r with
    | .ok st2 => collisions st2 rs
    | .error _ => r :: collisions st rs

/-- A Neo4j property value (string or integer). -/
inductive PropVal
  | s (v : String)
  | i (v : Int)
deriving DecidableEq, Repr

/-- The property map `_post_data` writes on the Observation node
(Neo4jConn.py line 75): id, platform, element, value, units — and no
timestamp property. -/
def observationProps (r : Row) : List (String × PropVal) :=
  [("id", .s r.id), ("platform", .s r.platform), ("element", .s r.element),
   ("value", .s r.value), ("units", .s r.units)]

/-- The property map `_post_data` writes on the OBSERVES edge
(Neo4jConn.py line 76). -/
def edgeProps (r : Row) : List (String × PropVal) :=
  [("timestamp", .i r.timestamp)]

/-- `MesonetSatelliteDB._build_query` (Neo4jConn.py lines 80-88): rows in the
Cypher RETURN order `s.name, o.timestamp, obs.platform, obs.element,
obs.value`, filtered by `o.timestamp >= $start_time and o.timestamp <=
$end_time and s.name = $station and obs.element = $element`. -/
def buildQuery (st : Store) (station : String) (start_time end_time : Int)
    (element : String) : List (String × Int × String × String × String) :=
  st.edges.filterMap fun e =>
    if start_time ≤ e.timestamp ∧ e.timestamp ≤ end_time ∧
        e.station = station ∧ e.obs.element = element then
      some (e.station, e.timestamp, e.obs.platform, e.obs.element, e.obs.value)
    else none

/-- A row of the dataframe returned by `MesonetSatelliteDB.query`, with the
column names assigned at Neo4jConn.py line 52. -/
structure QueryRow where
  value : String
  date : Int
  station : String
  platform : String
  element : String
deriving DecidableEq, Repr

/-- `MesonetSatelliteDB.query` (Neo4jConn.py lines 37-54): run `_build_query`
and label the result columns positionally as
`["value", "date", "station", "platform", "element"]` — so column `value`
receives the first returned expression `s.name`, column `station` receives
`obs.platform`, column `platform` receives `obs.element`, and column
`element` receives `obs.value`. -/
def query (st : Store) (station : String) (start_time end_time : Int)
    (element : String) : List QueryRow :=
  (buildQuery st station start_time end_time element).map fun c =>
    { value := c.1, date := c.2.1, station := c.2.2.1,
      platform := c.2.2.2.1, element := c.2.2.2.2 }

/-- A schema-initialization failure: the schema element already exists.
Modelled from Neo4j's documented DDL semantics: `CREATE INDEX` /
`CREATE CONSTRAINT` without `IF NOT EXISTS` raises a client error when an
equivalent schema rule is already present. -/
inductive SchemaError
  | alreadyExists
deriving DecidableEq, Repr

/-- Create one named schema rule; fails if it already exists (no
`IF NOT EXISTS` in the source statements). -/
def createSchemaRule (schema : List String) (rule : String) :
    Except SchemaError (List String) :=
  if rule ∈ schema then .error .alreadyExists
  else .ok (schema ++ [rule])

/-- `MesonetSatelliteDB._init_index` (Neo4jConn.py lines 90-102): one
transaction issuing the three plain CREATE statements in order, with no
error handling; the first failure aborts. -/
def initIndex (schema : List String) : Except SchemaError (List String) :=
  match createSchemaRule schema "timestampIndex" with
  | .error e => .error e
  | .ok s1 =>
    match createSchemaRule s1 "obsIdConstraint" with
    | .error e => .error e
    | .ok s2 => createSchemaRule s2 "stationConstraint"

/-- Outcome of `Submit.download` at one poll round.  Modelled from the spec:
`Task.py` is not part of the sources; `download` either materializes the
files (DONE), raises the distinguishable `PendingTaskError` (still pending),
or raises a genuine failure signal that is not a `PendingTaskError`. -/
inductive Outcome
  | done
  | pending
  | failed
deriving DecidableEq, Repr

/-- A remote extraction task as seen by `wait_on_tasks`: its id and the
outcome a `download` attempt has at each poll round.  Modelled from the spec:
a `Submit` is a plain record of request data, not a sequence (it is not
iterable). -/
structure Task where
  task_id : String
  outcome : Nat → Outcome

/-- The `for idx, task in enumerate(tasks)` body of `wait_on_tasks`
(update.py lines 111-116): attempt each download in order; `PendingTaskError`
is caught and the task kept for the next round; a genuine failure propagates
out of the loop at once. -/
def roundPoll (round : Nat) : List Task → Except Task (List Task)
  | [] => .ok []
  | t :: ts =>
    match t.outcome round with
    | .done => roundPoll round ts
    | .failed => .error t
    | .pending =>
      match roundPoll round ts with
      | .ok ps => .ok (t :: ps)
      | .error t2 => .error t2

/-- Result of running `wait_on_tasks`. -/
inductive LoopResult
  | completed (stillActive : List Task)
  | fatal (t : Task)
  | outOfFuel (active : List Task)

/-- The `while True` loop of `wait_on_tasks` (update.py lines 109-125),
with explicit fuel.  After a round, `getter = itemgetter(*indices);
tasks = [*getter(tasks)]` is attempted and `TypeError` breaks the loop:
`itemgetter()` with zero indices raises `TypeError` at construction, and
with exactly one index `getter(tasks)` is a single `Submit` object, so
`[*getter(tasks)]` raises `TypeError` as well (a `Submit` is not iterable —
modelled from the spec, `Task.py` is not under the sources).  Hence the loop
breaks whenever at most one task is still pending; only with two or more
pending tasks does it sleep and poll again. -/
def waitLoop : Nat → Nat → List Task → LoopResult
  | 0, _, ts => .outOfFuel ts
  | fuel + 1, round, ts =>
    match roundPoll round ts with
    | .error t => .fatal t
    | .ok [] => .completed []
    | .ok [t] => .completed [t]
    | .ok ps => waitLoop fuel (round + 1) ps

/-- A layer entry of a `Product` catalog (`p.layers.items()` with its `IsQA`
flag).  Modelled from the spec: `Product.py` is not under the sources; the
catalog maps each layer name to metadata carrying a QA marker. -/
structure Layer where
  name : String
  IsQA : Bool
deriving DecidableEq, Repr

/-- update.py line 21. -/
def RM_STRINGS : List String := ["_pft", "_std_", "StdDev"]

/-- Python's `str.lower()`: lower-case every character. -/
def lowerStr (s : String) : String :=
  ⟨s.toList.map Char.toLower⟩

/-- Python's `needle in hay` substring test. -/
def strContains (hay needle : String) : Bool :=
  decide (needle.toList <:+: hay.toList)

/-- The per-element layer selection of `start_missing_tasks`
(update.py lines 56-57): keep catalog layers whose name contains the element
case-insensitively and that are not QA layers, then drop any layer whose
name matches the regex `"_pft|_std_|StdDev"` (an alternation of literal
substrings, searched case-sensitively). -/
def layersForElement (cat : List Layer) (e : String) : List String :=
  let vals := ((cat.filter fun l =>
    strContains (lowerStr l.name) (lowerStr e) && !l.IsQA).map (fun l => l.name))
  vals.filter fun n => !(RM_STRINGS.any fun s2 => strContains n s2)

/-- The layer accumulation and dedup of `start_missing_tasks`
(update.py lines 54-60): concatenate the selections over all elements of the
sub-table, then `layers = set(layers)`. -/
def selectLayers (cat : List Layer) (elements : List String) : List String :=
  (elements.foldl (fun acc e => acc ++ layersForElement cat e) []).dedup

/-- One row of the `conn.get_latest()` result as used by the update module:
the last stored date per (platform, element), in whole days.
Modelled from the spec: `get_latest` itself is not under the sources; the
spec's `latest_per_product()` returns the maximum stored timestamp, and the
code consumes columns `platform`, `element` and `date` from it. -/
structure LatestRow where
  platform : String
  element : String
  date : Nat
deriving DecidableEq, Repr

/-- `find_missing_data` (update.py lines 23-31): take the latest-date table
and shift every date forward by one day.  It is a total pass-through: no
grouping, no dedup, no error path. -/
def find_missing_data (latest : List LatestRow) : List LatestRow :=
  latest.map fun r => { r with date := r.date + 1 }

/-- `AssertionError` raised by the `assert` at update.py lines 62-64. -/
inductive PlanError
  | assertionError
deriving DecidableEq, Repr

/-- The `Submit(...)` construction at update.py lines 77-84. -/
structure TaskSpec where
  name : String
  products : List String
  layers : List String
  start_date : Nat
  end_date : Nat
deriving DecidableEq, Repr

/-- The body of the `for p in products` loop of `start_missing_tasks`
(update.py lines 52-85) for one product: select the layers, assert that the
product's sub-table carries exactly one distinct date, skip the product when
`(today - date).days == 0`, and otherwise build the task covering
[date, today]. -/
def planForProduct (today : Nat) (prod : String) (cat : List Layer)
    (sub : List LatestRow) : Except PlanError (Option TaskSpec) :=
  let layers := selectLayers cat (sub.map fun r => r.element)
  match (sub.map fun r => r.date).dedup with
  | [d] =>
    if Int.ofNat today - Int.ofNat d = 0 then .ok none
    else .ok (some
      { name := prod ++ "_" ++ toString d ++ "_" ++ toString today,
        products := List.replicate layers.length prod,
        layers := layers,
        start_date := d, end_date := today })
  | _ => .error .assertionError

/-- The product loop of `start_missing_tasks`: one `planForProduct` per
distinct platform, collecting the emitted tasks in order; an assertion
failure aborts the whole function. -/
def planProducts (today : Nat) (catalog : String → List Layer)
    (missing : List LatestRow) : List String → Except PlanError (List TaskSpec)
  | [] => .ok []
  | q :: qs =>
    match planForProduct today q (catalog q)
        (missing.filter fun r => r.platform == q) with
    | .error e => .error e
    | .ok none => planProducts today catalog missing qs
    | .ok (some t) =>
      match planProducts today catalog missing qs with
      | .error e => .error e
      | .ok ts => .ok (t :: ts)

/-- `start_missing_tasks` (update.py lines 34-90), with the store's
latest-date table and today's date as explicit inputs: run
`find_missing_data`, take the distinct platforms, and plan one task per
platform (skipping zero-day gaps). -/
def startMissingTasks (today : Nat) (catalog : String → List Layer)
    (latest : List LatestRow) : Except PlanError (List TaskSpec) :=
  let missing := find_missing_data latest
  planProducts today catalog missing ((missing.map fun r => r.platform).dedup)

/-! Concrete fixtures used by the witness and counterexample theorems. -/

/-- First row of a colliding pair: same observation id as `rowB`, different
value. -/
def rowA : Row := ⟨"S", "id1", "P", "E", "0.1", "u", 100⟩

/-- Second row of a colliding pair: same observation id as `rowA`, different
value. -/
def rowB : Row := ⟨"S", "id1", "P", "E", "0.2", "u", 200⟩

def obs100 : Obs := ⟨"i1", "P", "E", "0.1", "u"⟩
def obs200 : Obs := ⟨"i2", "P", "E", "0.2", "u"⟩
def obs300 : Obs := ⟨"i3", "P", "E", "0.3", "u"⟩

/-- A store holding, for station S and element E, observations whose
OBSERVES edges carry timestamps 100, 200 and 300. -/
def exStore : Store :=
  ⟨["S"], [obs100, obs200, obs300],
   [⟨"S", obs100, 100⟩, ⟨"S", obs200, 200⟩, ⟨"S", obs300, 300⟩]⟩

/-- A task whose download succeeds at every poll round (DONE at round 0). -/
def taskA : Task := ⟨"A", fun _ => .done⟩

/-- A task that is still pending for the first two poll rounds and resolves
to DONE from round 2 on. -/
def taskB : Task := ⟨"B", fun round => if round < 2 then .pending else .done⟩

/-- A task that is pending at every round. -/
def taskP : Task := ⟨"P", fun _ => .pending⟩

/-- A task whose download raises a genuine (non-pending) failure. -/
def taskF : Task := ⟨"F", fun _ => .failed⟩

/-- A latest-date table in which platform P carries two distinct last
dates (a simulated data inconsistency). -/
def latestAmbig : List LatestRow := [⟨"P", "E1", 100⟩, ⟨"P", "E2", 200⟩]

/-- The row used to exhibit the observation-node property map. -/
def rowC8 : Row := ⟨"S", "obs1", "P", "E", "0.5", "mm", 42⟩

/-- A latest-date table where platform P has a zero-day gap relative to
`today = 10` (last date 9, so the resumption date 9 + 1 equals today) and
platform Q has an outstanding gap. -/
def latestC10 : List LatestRow := [⟨"P", "L", 9⟩, ⟨"Q", "L", 5⟩]

/-- An elementary layer catalog for the zero-day-skip witness. -/
def catC10 : String → List Layer := fun _ => [⟨"L", false⟩]

/-- A row `r` is fully present in store `t`: its station node, its
observation node and its OBSERVES edge all exist. -/
def upserted (r : Row) (t : Store) : Prop :=
  r.station ∈ t.stations ∧ obsOf r ∈ t.observations ∧ edgeOf r ∈ t.edges

/-- A row `r` is permanently blocked in store `t`: its observation node is
absent but some other node already holds its id, so `_post_data` raises
`ConstraintError` on it. -/
def blocked (r : Row) (t : Store) : Prop :=
  obsOf r ∉ t.observations ∧ ∃ o2 ∈ t.observations, o2.id = r.id

/-- A row is settled in a store when it is either fully present or
permanently blocked; in both cases upserting it again is a no-op. -/
def settled (r : Row) (t : Store) : Prop :=
  upserted r t ∨ blocked r t

/-! Helper lemmas about the embedded store operations. -/

theorem storeExt {a b : Store} (h1 : a.stations = b.stations)
    (h2 : a.observations = b.observations) (h3 : a.edges = b.edges) :
    a = b := by
  cases a; cases b; simp_all

theorem mergeStation_observations (st : Store) (n : String) :
    (mergeStation st n).observations = st.observations := by
  unfold mergeStation; split <;> rfl

theorem mergeStation_edges (st : Store) (n : String) :
    (mergeStation st n).edges = st.edges := by
  unfold mergeStation; split <;> rfl

theorem mergeStation_of_mem {st : Store} {n : String} (h : n ∈ st.stations) :
    mergeStation st n = st := by
  unfold mergeStation; simp [h]

theorem mergeStation_self_mem (st : Store) (n : String) :
    n ∈ (mergeStation st n).stations := by
  unfold mergeStation; split
  · assumption
  · exact List.mem_cons_self _ _

theorem mergeStation_stations_mono {st : Store} {a : String} (n : String)
    (h : a ∈ st.stations) : a ∈ (mergeStation st n).stations := by
  unfold mergeStation; split
  · exact h
  · exact List.mem_cons_of_mem _ h

theorem mergeEdge_stations (st : Store) (e : Edge) :
    (mergeEdge st e).stations = st.stations := by
  unfold mergeEdge; split <;> rfl

theorem mergeEdge_observations (st : Store) (e : Edge) :
    (mergeEdge st e).observations = st.observations := by
  unfold mergeEdge; split <;> rfl

theorem mergeEdge_of_mem {st : Store} {e : Edge} (h : e ∈ st.edges) :
    mergeEdge st e = st := by
  unfold mergeEdge; simp [h]

theorem mergeEdge_self_mem (st : Store) (e : Edge) :
    e ∈ (mergeEdge st e).edges := by
  unfold mergeEdge; split
  · assumption
  · exact List.mem_cons_self _ _

theorem mergeEdge_edges_mono {st : Store} {a : Edge} (e : Edge)
    (h : a ∈ st.edges) : a ∈ (mergeEdge st e).edges := by
  unfold mergeEdge; split
  · exact h
  · exact List.mem_cons_of_mem _ h

theorem mergeObservation_cases (st : Store) (o : Obs) :
    (o ∈ st.observations ∧ mergeObservation st o = .ok st)
    ∨ (o ∉ st.observations ∧ (∃ o2 ∈ st.observations, o2.id = o.id)
        ∧ mergeObservation st o = .error .uniqueId)
    ∨ (o ∉ st.observations ∧ (∀ o2 ∈ st.observations, o2.id ≠ o.id)
        ∧ mergeObservation st o =
            .ok { st with observations := o :: st.observations }) := by
  unfold mergeObservation
  split_ifs with h1 h2
  · exact .inl ⟨h1, rfl⟩
  · refine .inr (.inl ⟨h1, ?_, rfl⟩)
    simpa [List.any_eq_true, beq_iff_eq] using h2
  · refine .inr (.inr ⟨h1, ?_, rfl⟩)
    intro o2 hm
    simp only [List.any_eq_true, beq_iff_eq, not_exists, not_and] at h2
    exact h2 o2 hm

theorem step_cases (st : Store) (r : Row) :
    (step st r = st ∧ obsOf r ∉ st.observations
      ∧ ∃ o2 ∈ st.observations, o2.id = r.id)
    ∨ (∃ stM, step st r = mergeEdge stM (edgeOf r)
        ∧ stM.stations = (mergeStation st r.station).stations
        ∧ ((stM.observations = st.observations ∧ obsOf r ∈ st.observations)
            ∨ (stM.observations = obsOf r :: st.observations
                ∧ ∀ o2 ∈ st.observations, o2.id ≠ r.id))
        ∧ stM.edges = st.edges) := by
  have hobs := mergeObservation_cases (mergeStation st r.station) (obsOf r)
  rw [mergeStation_observations] at hobs
  rcases hobs with ⟨h1, hEq⟩ | ⟨h1, h2, hEq⟩ | ⟨h1, h2, hEq⟩
  · have hStep : step st r = mergeEdge (mergeStation st r.station) (edgeOf r) := by
      unfold step postData; rw [hEq]
    exact .inr ⟨mergeStation st r.station, hStep, rfl,
      .inl ⟨mergeStation_observations st r.station, h1⟩,
      mergeStation_edges st r.station⟩
  · have hStep : step st r = st := by
      unfold step postData; rw [hEq]
    exact .inl ⟨hStep, h1, h2⟩
  · have hStep : step st r =
        mergeEdge { mergeStation st r.station with
                    observations := obsOf r :: st.observations } (edgeOf r) := by
      unfold step postData; rw [hEq]
    exact .inr ⟨_, hStep, rfl, .inr ⟨rfl, h2⟩, mergeStation_edges st r.station⟩

theorem step_stations_mono {st : Store} {r : Row} {a : String}
    (h : a ∈ st.stations) : a ∈ (step st r).stations := by
  rcases step_cases st r with ⟨hEq, _, _⟩ | ⟨stM, hEq, hs, _, _⟩
  · rw [hEq]; exact h
  · rw [hEq, mergeEdge_stations, hs]
    exact mergeStation_stations_mono _ h

theorem step_observations_mono {st : Store} {r : Row} {o : Obs}
    (h : o ∈ st.observations) : o ∈ (step st r).observations := by
  rcases step_cases st r with ⟨hEq, _, _⟩ | ⟨stM, hEq, _, ho, _⟩
  · rw [hEq]; exact h
  · rw [hEq, mergeEdge_observations]
    rcases ho with ⟨hEq2, _⟩ | ⟨hEq2, _⟩
    · rw [hEq2]; exact h
    · rw [hEq2]; exact List.mem_cons_of_mem _ h

theorem step_edges_mono {st : Store} {r : Row} {e : Edge}
    (h : e ∈ st.edges) : e ∈ (step st r).edges := by
  rcases step_cases st r with ⟨hEq, _, _⟩ | ⟨stM, hEq, _, _, he⟩
  · rw [hEq]; exact h
  · rw [hEq]; exact mergeEdge_edges_mono _ (he ▸ h)

theorem step_of_settled {r : Row} {t : Store} (h : settled r t) :
    step t r = t := by
  rcases h with ⟨h1, h2, h3⟩ | ⟨h1, h2⟩
  · rcases step_cases t r with ⟨hEq, _, _⟩ | ⟨stM, hEq, hs, ho, he⟩
    · exact hEq
    · rw [hEq]
      have hsEq : stM.stations = t.stations := by
        rw [hs, mergeStation_of_mem h1]
      have hoEq : stM.observations = t.observations := by
        rcases ho with ⟨hEq2, _⟩ | ⟨_, hforall⟩
        · exact hEq2
        · exact absurd rfl (hforall (obsOf r) h2)
      rw [storeExt hsEq hoEq he]
      exact mergeEdge_of_mem h3
  · rcases step_cases t r with ⟨hEq, _, _⟩ | ⟨stM, hEq, _, ho, _⟩
    · exact hEq
    · rcases ho with ⟨_, hmem⟩ | ⟨_, hforall⟩
      · exact absurd hmem h1
      · rcases h2 with ⟨o2, hm, hid⟩
        exact absurd hid (hforall o2 hm)

theorem settled_step_self (t : Store) (r : Row) : settled r (step t r) := by
  rcases step_cases t r with ⟨hEq, h1, h2⟩ | ⟨stM, hEq, hs, ho, _⟩
  · right; rw [hEq]; exact ⟨h1, h2⟩
  · left; rw [hEq]
    refine ⟨?_, ?_, mergeEdge_self_mem _ _⟩
    · rw [mergeEdge_stations, hs]; exact mergeStation_self_mem _ _
    · rw [mergeEdge_observations]
      rcases ho with ⟨hEq2, hmem⟩ | ⟨hEq2, _⟩
      · rw [hEq2]; exact hmem
      · rw [hEq2]; exact List.mem_cons_self _ _

theorem settled_mono {r : Row} {t : Store} (r2 : Row) (h : settled r t) :
    settled r (step t r2) := by
  rcases h with ⟨h1, h2, h3⟩ | ⟨h1, h2⟩
  · exact .inl ⟨step_stations_mono h1, step_observations_mono h2,
      step_edges_mono h3⟩
  · right
    constructor
    · intro hmem
      rcases step_cases t r2 with ⟨hEq, _, _⟩ | ⟨stM, hEq, _, ho, _⟩
      · rw [hEq] at hmem; exact h1 hmem
      · rw [hEq, mergeEdge_observations] at hmem
        rcases ho with ⟨hEq2, _⟩ | ⟨hEq2, hforall⟩
        · rw [hEq2] at hmem; exact h1 hmem
        · rw [hEq2] at hmem
          rcases List.mem_cons.mp hmem with heq | hmem2
          · rcases h2 with ⟨o2, hm, hid⟩
            apply hforall o2 hm
            have hidEq : (obsOf r).id = (obsOf r2).id := by rw [heq]
            rw [hid]
            exact hidEq
          · exact h1 hmem2
    · rcases h2 with ⟨o2, hm, hid⟩
      exact ⟨o2, step_observations_mono hm, hid⟩

theorem settled_post {r : Row} (rows : List Row) {t : Store}
    (h : settled r t) : settled r (post t rows) := by
  induction rows generalizing t with
  | nil => exact h
  | cons r2 rs ih => exact ih (settled_mono r2 h)

theorem settled_all (r : Row) :
    ∀ (rows : List Row) (t : Store), r ∈ rows → settled r (post t rows) := by
  intro rows
  induction rows with
  | nil => intro t h; cases h
  | cons r2 rs ih =>
    intro t h
    rcases List.mem_cons.mp h with rfl | h2
    · exact settled_post rs (settled_step_self t r)
    · exact ih (step t r2) h2

theorem post_of_settled :
    ∀ (rows : List Row) (t : Store), (∀ r ∈ rows, settled r t) →
      post t rows = t := by
  intro rows
  induction rows with
  | nil => intro t _; rfl
  | cons r2 rs ih =>
    intro t h
    have h2 : step t r2 = t := step_of_settled (h r2 (List.mem_cons_self _ _))
    show post (step t r2) rs = t
    rw [h2]
    exact ih t (fun r hr => h r (List.mem_cons_of_mem _ hr))

/-- C1: for every store state and every batch of observation rows, running
`MesonetSatelliteDB.post` a second time with the same rows leaves the store
exactly as it was after the first run — in particular no duplicate
Observation nodes appear and the edge set (hence the edge count) is
unchanged by the second call. -/
theorem post_idempotent (st : Store) (rows : List Row) :
    post (post st rows) rows = post st rows :=
  post_of_settled rows (post st rows) (fun r hr => settled_all r rows st hr)

theorem postData_error_of_blocked {r : Row} {t : Store} (h : blocked r t) :
    postData t r = .error .uniqueId := by
  rcases h with ⟨h1, h2⟩
  rcases mergeObservation_cases (mergeStation t r.station) (obsOf r) with
    ⟨hm, _⟩ | ⟨_, _, hEq⟩ | ⟨_, hforall, _⟩
  · rw [mergeStation_observations] at hm
    exact absurd hm h1
  · unfold postData; rw [hEq]
  · rw [mergeStation_observations] at hforall
    rcases h2 with ⟨o2, hm2, hid2⟩
    exact absurd hid2 (hforall o2 hm2)

/-- C2: upserting two rows that share an observation id but differ in value
leaves exactly one stored Observation, carrying the first row's values; the
second row's transaction hits the uniqueness constraint, is caught and
recorded as skipped (not raised), and the remaining rows of the batch are
processed exactly as if the colliding row had not been there. -/
theorem post_uniqueness (r1 r2 : Row) (rest : List Row)
    (hid : r1.id = r2.id) (hv : r1.value ≠ r2.value) :
    (post emptyStore [r1, r2]).observations = [obsOf r1]
    ∧ post emptyStore (r1 :: r2 :: rest) = post emptyStore (r1 :: rest)
    ∧ r2 ∈ collisions emptyStore (r1 :: r2 :: rest) := by
  have hne : obsOf r2 ≠ obsOf r1 := fun h => hv (congrArg Obs.value h).symm
  have hPD1 : postData emptyStore r1 =
      .ok ⟨[r1.station], [obsOf r1], [edgeOf r1]⟩ := by
    simp [postData, mergeStation, mergeObservation, mergeEdge, emptyStore]
  have hS1 : step emptyStore r1 = ⟨[r1.station], [obsOf r1], [edgeOf r1]⟩ := by
    simp [step, hPD1]
  have hblocked : blocked r2 ⟨[r1.station], [obsOf r1], [edgeOf r1]⟩ := by
    refine ⟨by simpa using hne, obsOf r1, by simp, ?_⟩
    exact hid
  have hPD2 := postData_error_of_blocked hblocked
  have hstep2 : step ⟨[r1.station], [obsOf r1], [edgeOf r1]⟩ r2 =
      ⟨[r1.station], [obsOf r1], [edgeOf r1]⟩ := by
    simp [step, hPD2]
  refine ⟨?_, ?_, ?_⟩
  · show (step (step emptyStore r1) r2).observations = [obsOf r1]
    rw [hS1, hstep2]
  · show post (step (step emptyStore r1) r2) rest =
        post (step emptyStore r1) rest
    rw [hS1, hstep2]
  · show r2 ∈ collisions emptyStore (r1 :: r2 :: rest)
    rw [collisions, hPD1]
    show r2 ∈ collisions ⟨[r1.station], [obsOf r1], [edgeOf r1]⟩ (r2 :: rest)
    rw [collisions, hPD2]
    exact List.mem_cons_self _ _

/-- Closed instance of the C2 uniqueness property: rows `rowA` and `rowB`
share id "id1" with values "0.1" and "0.2"; only `rowA`'s observation is
stored and `rowB` is recorded as skipped. -/
theorem post_uniqueness_witness :
    (post emptyStore [rowA, rowB]).observations = [obsOf rowA]
    ∧ post emptyStore (rowA :: rowB :: []) = post emptyStore (rowA :: [])
    ∧ rowB ∈ collisions emptyStore (rowA :: rowB :: []) :=
  post_uniqueness rowA rowB [] (by decide) (by decide)

/-- C8 (amended): every edge that an upsert writes is `edgeOf r`, carrying
the upserted row's timestamp and pointing at the row's observation node,
while the node's own property map contains no "timestamp" key at all — the
timestamp is denormalized onto the edge only. -/
theorem upsert_edge_carries_row_timestamp (t : Store) (r : Row) :
    ((step t r).edges = t.edges ∨ (step t r).edges = edgeOf r :: t.edges)
    ∧ (observationProps r).lookup "timestamp" = none
    ∧ (edgeProps r).lookup "timestamp" = some (.i r.timestamp) := by
  refine ⟨?_, by simp [observationProps, List.lookup], by simp [edgeProps, List.lookup]⟩
  rcases step_cases t r with ⟨hEq, _, _⟩ | ⟨stM, hEq, _, _, he⟩
  · rw [hEq]; exact .inl rfl
  · rw [hEq]
    unfold mergeEdge
    split
    · left; exact he
    · right
      show edgeOf r :: stM.edges = edgeOf r :: t.edges
      rw [he]

/-- C8 counterexample: after upserting `rowC8` (timestamp 42) into the empty
store, the OBSERVES edge carries timestamp 42, but the created Observation
node's property map has no "timestamp" attribute — so the claimed equality
"edge timestamp = the node's timestamp attribute" has no witness on the
node side. -/
theorem obs_node_has_no_timestamp_attr :
    (step emptyStore rowC8).edges.map (fun e => e.timestamp) = [42]
    ∧ (step emptyStore rowC8).observations = [obsOf rowC8]
    ∧ (observationProps rowC8).lookup "timestamp" = none := by
  decide

/-- C3: at a store holding observations with edge timestamps 100, 200 and
300 for station S / element E, `query(S, 150, 300, E)` does return exactly
the two observation rows at timestamps 200 and 300 (inclusive bounds), but
the positional column renaming at Neo4jConn.py line 52 mislabels the
columns: the `value` column holds the station name `s.name`, the `station`
column holds `obs.platform`, the `platform` column holds `obs.element`, and
the observation's value ends up in the `element` column; only `date`
matches its content. -/
theorem query_mislabels_columns :
    query exStore "S" 150 300 "E" =
      [{ value := "S", date := 200, station := "P", platform := "E",
         element := "0.2" },
       { value := "S", date := 300, station := "P", platform := "E",
         element := "0.3" }]
    ∧ ((query exStore "S" 150 300 "E").map fun qr => qr.value) = ["S", "S"]
    ∧ ((query exStore "S" 150 300 "E").map fun qr => qr.element) =
        ["0.2", "0.3"]
    ∧ (exStore.observations.map fun o => o.value) = ["0.1", "0.2", "0.3"] := by
  decide

/-- C4: with two tasks of which the first resolves immediately and the
second is still pending at round 0 (it would resolve at round 2), the
`wait_on_tasks` loop stops at round 0 reporting completion while the second
task is still pending: with exactly one index left, `itemgetter(idx)(tasks)`
is a single task object and `[*getter(tasks)]` raises `TypeError`, which the
code treats as the all-done sentinel. -/
theorem wait_on_tasks_stops_with_one_pending :
    waitLoop 10 0 [taskA, taskB] = .completed [taskB]
    ∧ taskB.outcome 0 = .pending
    ∧ taskB.outcome 2 = .done :=
  ⟨rfl, rfl, rfl⟩

/-- C9 counterexample: `init_db`'s schema step succeeds on an empty store,
but a second invocation is not a no-op and its conflict is not caught
anywhere in `init_db` — the very first CREATE fails with an already-exists
error that propagates, so the claim that a repeat call does not abort is
false at this input. -/
theorem init_db_second_call_aborts :
    initIndex [] =
      .ok ["timestampIndex", "obsIdConstraint", "stationConstraint"]
    ∧ initIndex ["timestampIndex", "obsIdConstraint", "stationConstraint"] =
      .error .alreadyExists :=
  ⟨rfl, rfl⟩

/-- C9 (amended): whenever the schema-creation step succeeds, running it a
second time on the resulting schema fails with an already-exists conflict
(and `_init_index` / `init_db` contain no handler for it): the
initialization is not idempotent. -/
theorem createSchemaRule_ok {schema s2 : List String} {rule : String}
    (h : createSchemaRule schema rule = .ok s2) : s2 = schema ++ [rule] := by
  unfold createSchemaRule at h
  split_ifs at h
  have h2 := h
  simp only [Except.ok.injEq] at h2
  exact h2.symm

theorem init_index_not_idempotent (schema s2 : List String)
    (h : initIndex schema = .ok s2) :
    initIndex s2 = .error .alreadyExists := by
  unfold initIndex at h
  split at h
  · exact absurd h (by simp)
  · rename_i s1 hc1
    split at h
    · exact absurd h (by simp)
    · rename_i sB hc2
      have e1 := createSchemaRule_ok hc1
      have e2 := createSchemaRule_ok hc2
      have e3 := createSchemaRule_ok h
      subst e1
      subst e2
      subst e3
      unfold initIndex createSchemaRule
      rw [if_pos (by simp)]

/-- Closed instance of the amended C9 statement at the schema produced by a
first successful initialization. -/
theorem init_index_not_idempotent_witness :
    initIndex ["timestampIndex", "obsIdConstraint", "stationConstraint"] =
      .error .alreadyExists :=
  init_index_not_idempotent []
    ["timestampIndex", "obsIdConstraint", "stationConstraint"] rfl

/-- C7 counterexample: on a latest-date table in which platform P carries
the two distinct last dates 100 and 200, `find_missing_data` returns both
rows, shifted by one day, with no error of any kind — it is a total
function straight into a table, with no per-platform uniqueness check and
no error path in its type. -/
theorem find_missing_passes_ambiguity_through :
    find_missing_data latestAmbig =
      [⟨"P", "E1", 101⟩, ⟨"P", "E2", 201⟩]
    ∧ ((find_missing_data latestAmbig).filter
        fun r => r.platform == "P").length = 2 := by
  decide

theorem roundPoll_ok (round : Nat) :
    ∀ (ts : List Task), (∀ t ∈ ts, t.outcome round ≠ .failed) →
      roundPoll round ts =
        .ok (ts.filter fun t => t.outcome round == .pending) := by
  intro ts
  induction ts with
  | nil => intro _; rfl
  | cons t rest ih =>
    intro h
    have ht := h t (List.mem_cons_self _ _)
    have hrest := ih (fun t2 h2 => h t2 (List.mem_cons_of_mem _ h2))
    cases hout : t.outcome round with
    | done => simp [roundPoll, hout, hrest, List.filter_cons]
    | failed => exact absurd hout ht
    | pending => simp [roundPoll, hout, hrest, List.filter_cons]

theorem roundPoll_error (round : Nat) :
    ∀ (ts : List Task) (t : Task), t ∈ ts → t.outcome round = .failed →
      ∃ t2 ∈ ts, t2.outcome round = .failed ∧ roundPoll round ts = .error t2 := by
  intro ts
  induction ts with
  | nil => intro t h; cases h
  | cons t0 rest ih =>
    intro t hmem hfail
    cases hout : t0.outcome round with
    | failed =>
      exact ⟨t0, List.mem_cons_self _ _, hout, by simp [roundPoll, hout]⟩
    | done =>
      rcases List.mem_cons.mp hmem with rfl | h2
      · rw [hout] at hfail; cases hfail
      · rcases ih t h2 hfail with ⟨t2, hm2, hf2, hEq2⟩
        exact ⟨t2, List.mem_cons_of_mem _ hm2, hf2,
          by simp [roundPoll, hout, hEq2]⟩
    | pending =>
      rcases List.mem_cons.mp hmem with rfl | h2
      · rw [hout] at hfail; cases hfail
      · rcases ih t h2 hfail with ⟨t2, hm2, hf2, hEq2⟩
        exact ⟨t2, List.mem_cons_of_mem _ hm2, hf2,
          by simp [roundPoll, hout, hEq2]⟩

/-- C5: within one polling round, only the still-pending signal is caught —
when no download raises a genuine failure, the round returns exactly the
still-pending tasks, themselves, for re-queueing (their state unchanged);
and when some task's download raises a genuine failure, the round and with
it the whole wait loop abort with that failure propagating, so a pending
task is never conflated with a failed one. -/
theorem wait_on_tasks_pending_vs_failed (round : Nat) (ts : List Task) :
    ((∀ t ∈ ts, t.outcome round ≠ .failed) →
      roundPoll round ts =
        .ok (ts.filter fun t => t.outcome round == .pending))
    ∧ (∀ t ∈ ts, t.outcome round = .failed →
        ∃ t2 ∈ ts, t2.outcome round = .failed
          ∧ roundPoll round ts = .error t2
          ∧ ∀ fuel, waitLoop (fuel + 1) round ts = .fatal t2) := by
  refine ⟨roundPoll_ok round ts, ?_⟩
  intro t hmem hfail
  rcases roundPoll_error round ts t hmem hfail with ⟨t2, hm2, hf2, hEq2⟩
  exact ⟨t2, hm2, hf2, hEq2, fun fuel => by simp [waitLoop, hEq2]⟩

/-- Closed instance of C5: a purely pending task is re-queued unchanged,
and a failing task makes the loop abort fatally. -/
theorem wait_on_tasks_pending_vs_failed_witness :
    roundPoll 0 [taskP] = .ok ([taskP].filter fun t => t.outcome 0 == .pending)
    ∧ ∃ t2 ∈ [taskF], t2.outcome 0 = .failed
        ∧ roundPoll 0 [taskF] = .error t2
        ∧ ∀ fuel, waitLoop (fuel + 1) 0 [taskF] = .fatal t2 :=
  ⟨(wait_on_tasks_pending_vs_failed 0 [taskP]).1
      (by intro t ht; rw [List.mem_singleton] at ht; subst ht; decide),
   (wait_on_tasks_pending_vs_failed 0 [taskF]).2 taskF
      (List.mem_cons_self _ _) rfl⟩

theorem mem_foldl_append (cat : List Layer) :
    ∀ (els : List String) (acc : List String) (x : String),
      (x ∈ els.foldl (fun a e => a ++ layersForElement cat e) acc) ↔
        x ∈ acc ∨ ∃ e ∈ els, x ∈ layersForElement cat e := by
  intro els
  induction els with
  | nil => intro acc x; simp
  | cons e0 rest ih =>
    intro acc x
    show x ∈ rest.foldl _ (acc ++ layersForElement cat e0) ↔ _
    rw [ih]
    simp only [List.mem_append, List.mem_cons]
    constructor
    · rintro ((hx | hx) | ⟨e, he, hx⟩)
      · exact .inl hx
      · exact .inr ⟨e0, .inl rfl, hx⟩
      · exact .inr ⟨e, .inr he, hx⟩
    · rintro (hx | ⟨e, (rfl | he), hx⟩)
      · exact .inl (.inl hx)
      · exact .inl (.inr hx)
      · exact .inr ⟨e, he, hx⟩

theorem mem_layersForElement {cat : List Layer} {e x : String} :
    x ∈ layersForElement cat e ↔
      ∃ l ∈ cat, l.name = x ∧ l.IsQA = false
        ∧ strContains (lowerStr x) (lowerStr e) = true
        ∧ ∀ s2 ∈ RM_STRINGS, strContains x s2 = false := by
  unfold layersForElement
  constructor
  · intro hx
    have h1 := List.mem_filter.mp hx
    rcases List.mem_map.mp h1.1 with ⟨l, hl, rfl⟩
    have h2 := List.mem_filter.mp hl
    have h3 := h2.2
    rw [Bool.and_eq_true] at h3
    refine ⟨l, h2.1, rfl, by simpa using h3.2, h3.1, ?_⟩
    intro s2 hs2
    have h4 := h1.2
    rw [Bool.not_eq_true'] at h4
    rw [List.any_eq_false] at h4
    simpa using h4 s2 hs2
  · rintro ⟨l, hl, rfl, hqa, hcontains, hdeny⟩
    refine List.mem_filter.mpr ⟨?_, ?_⟩
    · exact List.mem_map.mpr ⟨l, List.mem_filter.mpr ⟨hl,
        by rw [Bool.and_eq_true]; exact ⟨hcontains, by simp [hqa]⟩⟩, rfl⟩
    · rw [Bool.not_eq_true', List.any_eq_false]
      intro s2 hs2
      simpa using hdeny s2 hs2

/-- C6: for each product, the planner selects exactly those catalog layers
whose name contains one of the requested elements as a case-insensitive
substring, that are not QA layers, and whose name contains none of the
denylist substrings `RM_STRINGS = ["_pft", "_std_", "StdDev"]`; the result
is deduplicated; and on the concrete catalog {NDVI, NDVI_std_dev, NDVI_pft}
(all non-QA) with element "NDVI", only {"NDVI"} is selected. -/
theorem select_layers_spec (cat : List Layer) (elements : List String) :
    (selectLayers cat elements).Nodup
    ∧ (∀ x, x ∈ selectLayers cat elements ↔
        ∃ l ∈ cat, l.name = x ∧ l.IsQA = false
          ∧ (∃ e ∈ elements, strContains (lowerStr x) (lowerStr e) = true)
          ∧ ∀ s2 ∈ RM_STRINGS, strContains x s2 = false)
    ∧ selectLayers [⟨"NDVI", false⟩, ⟨"NDVI_std_dev", false⟩,
        ⟨"NDVI_pft", false⟩] ["NDVI"] = ["NDVI"] := by
  refine ⟨List.nodup_dedup _, ?_, by decide⟩
  intro x
  unfold selectLayers
  rw [List.mem_dedup, mem_foldl_append]
  simp only [List.not_mem_nil, false_or]
  constructor
  · rintro ⟨e, he, hx⟩
    rcases mem_layersForElement.mp hx with ⟨l, hl, rfl, hqa, hcontains, hdeny⟩
    exact ⟨l, hl, rfl, hqa, ⟨e, he, hcontains⟩, hdeny⟩
  · rintro ⟨l, hl, rfl, hqa, ⟨e, he, hcontains⟩, hdeny⟩
    exact ⟨e, he, mem_layersForElement.mpr ⟨l, hl, rfl, hqa, hcontains, hdeny⟩⟩

theorem planProducts_error (today : Nat) (catalog : String → List Layer)
    (missing : List LatestRow) :
    ∀ (qs : List String) (q : String), q ∈ qs →
      planForProduct today q (catalog q)
        (missing.filter fun r => r.platform == q) = .error .assertionError →
      planProducts today catalog missing qs = .error .assertionError := by
  intro qs
  induction qs with
  | nil => intro q h; cases h
  | cons q0 rest ih =>
    intro q hmem hErr
    rcases List.mem_cons.mp hmem with rfl | h2
    · rw [planProducts, hErr]
    · cases hq0 : planForProduct today q0 (catalog q0)
          (missing.filter fun r => r.platform == q0) with
      | error e => cases e; rw [planProducts, hq0]
      | ok o =>
        cases o with
        | none => rw [planProducts, hq0]; exact ih q h2 hErr
        | some t => rw [planProducts, hq0, ih q h2 hErr]

theorem planForProduct_error_of_two_dates {today : Nat} {prod : String}
    {cat : List Layer} {sub : List LatestRow} {d1 d2 : Nat}
    (h1 : d1 ∈ sub.map (fun r => r.date)) (h2 : d2 ∈ sub.map (fun r => r.date))
    (hne : d1 ≠ d2) :
    planForProduct today prod cat sub = .error .assertionError := by
  have h1d := List.mem_dedup.mpr h1
  have h2d := List.mem_dedup.mpr h2
  cases hd : (sub.map fun r => r.date).dedup with
  | nil => rw [hd] at h1d; exact absurd h1d (List.not_mem_nil d1)
  | cons a tail =>
    cases tail with
    | nil =>
      rw [hd] at h1d h2d
      rw [List.mem_singleton] at h1d h2d
      exact absurd (h1d.trans h2d.symm) hne
    | cons b tail2 =>
      simp only [planForProduct]
      rw [hd]

/-- C7 (amended): `find_missing_data` itself performs no ambiguity check —
the rejection lives downstream in `start_missing_tasks`: whenever the
latest-date table carries two rows with the same platform but distinct
dates, the whole planning run fails with the `AssertionError` of
update.py lines 62-64 instead of emitting a task from an arbitrary pick. -/
theorem start_missing_tasks_rejects_ambiguity (today : Nat)
    (catalog : String → List Layer) (latest : List LatestRow) (p : String)
    (r1 r2 : LatestRow) (h1 : r1 ∈ latest) (h2 : r2 ∈ latest)
    (hp1 : r1.platform = p) (hp2 : r2.platform = p) (hd : r1.date ≠ r2.date) :
    startMissingTasks today catalog latest = .error .assertionError := by
  show planProducts today catalog (find_missing_data latest)
      (((find_missing_data latest).map fun r => r.platform).dedup) =
    .error .assertionError
  have hm1 : ({ r1 with date := r1.date + 1 } : LatestRow) ∈
      find_missing_data latest := List.mem_map_of_mem _ h1
  have hm2 : ({ r2 with date := r2.date + 1 } : LatestRow) ∈
      find_missing_data latest := List.mem_map_of_mem _ h2
  have hf1 : ({ r1 with date := r1.date + 1 } : LatestRow) ∈
      (find_missing_data latest).filter (fun r => r.platform == p) :=
    List.mem_filter.mpr ⟨hm1, by simp [hp1]⟩
  have hf2 : ({ r2 with date := r2.date + 1 } : LatestRow) ∈
      (find_missing_data latest).filter (fun r => r.platform == p) :=
    List.mem_filter.mpr ⟨hm2, by simp [hp2]⟩
  have hd1 : r1.date + 1 ∈
      ((find_missing_data latest).filter (fun r => r.platform == p)).map
        (fun r => r.date) := List.mem_map_of_mem _ hf1
  have hd2 : r2.date + 1 ∈
      ((find_missing_data latest).filter (fun r => r.platform == p)).map
        (fun r => r.date) := List.mem_map_of_mem _ hf2
  have hdne : r1.date + 1 ≠ r2.date + 1 :=
    fun hEq => hd (Nat.add_right_cancel hEq)
  have hplan := @planForProduct_error_of_two_dates today p (catalog p) _ _ _
    hd1 hd2 hdne
  have hpm : p ∈ ((find_missing_data latest).map fun r => r.platform).dedup := by
    rw [List.mem_dedup]
    have hmm := List.mem_map_of_mem (fun r => r.platform) hm1
    simpa [hp1] using hmm
  exact planProducts_error today catalog (find_missing_data latest) _ p hpm hplan

/-- Closed instance of the amended C7 statement: on the two-dates-for-P
table, planning fails with the assertion error. -/
theorem start_missing_tasks_rejects_ambiguity_witness :
    startMissingTasks 10 catC10 latestAmbig = .error .assertionError :=
  start_missing_tasks_rejects_ambiguity 10 catC10 latestAmbig "P"
    ⟨"P", "E1", 100⟩ ⟨"P", "E2", 200⟩ (by decide) (by decide) rfl rfl
    (by decide)

theorem dedup_filter (q : String → Bool) :
    ∀ (l : List String), (l.filter q).dedup = l.dedup.filter q := by
  intro l
  induction l with
  | nil => rfl
  | cons a l ih =>
    by_cases hmem : a ∈ l
    · rw [List.dedup_cons_of_mem hmem]
      cases hq : q a with
      | true =>
        have hmf : a ∈ l.filter q := List.mem_filter.mpr ⟨hmem, hq⟩
        rw [List.filter_cons_of_pos hq, List.dedup_cons_of_mem hmf, ih]
      | false => rw [List.filter_cons_of_neg (by simp [hq]), ih]
    · rw [List.dedup_cons_of_not_mem hmem]
      cases hq : q a with
      | true =>
        have hmf : a ∉ l.filter q := fun hc => hmem (List.mem_filter.mp hc).1
        rw [List.filter_cons_of_pos hq, List.dedup_cons_of_not_mem hmf, ih,
          List.filter_cons_of_pos hq]
      | false =>
        rw [List.filter_cons_of_neg (by simp [hq]), ih,
          List.filter_cons_of_neg (by simp [hq])]

theorem find_missing_filter (latest : List LatestRow) (p : String) :
    find_missing_data (latest.filter fun r => !(r.platform == p)) =
      (find_missing_data latest).filter fun r => !(r.platform == p) := by
  induction latest with
  | nil => rfl
  | cons r l ih =>
    cases hq : r.platform == p <;>
      simp [find_missing_data, List.filter_cons, hq] <;>
      simpa [find_missing_data] using ih

theorem platforms_filter (missing : List LatestRow) (p : String) :
    ((missing.filter fun r => !(r.platform == p)).map fun r => r.platform) =
      (missing.map fun r => r.platform).filter fun q => !(q == p) := by
  induction missing with
  | nil => rfl
  | cons r l ih =>
    cases hq : r.platform == p <;> simp [List.filter_cons, hq, ih]

theorem filter_platform_eq {missing : List LatestRow} {p q : String}
    (hne : (q == p) = false) :
    ((missing.filter fun r => !(r.platform == p)).filter
        fun r => r.platform == q) =
      missing.filter fun r => r.platform == q := by
  induction missing with
  | nil => rfl
  | cons r l ih =>
    cases hq : r.platform == q with
    | false => cases hp : r.platform == p <;> simp [List.filter_cons, hp, hq, ih]
    | true =>
      have hp : (r.platform == p) = false := by
        have h1 : r.platform = q := by simpa using hq
        rw [h1]; exact hne
      simp [List.filter_cons, hp, hq, ih]

theorem dedup_all_eq :
    ∀ (l : List Nat) (d : Nat), l ≠ [] → (∀ x ∈ l, x = d) → l.dedup = [d] := by
  intro l
  induction l with
  | nil => intro d h; cases h rfl
  | cons a tail ih =>
    intro d _ hall
    have ha : a = d := hall a (List.mem_cons_self _ _)
    cases tail with
    | nil => subst ha; simp
    | cons b tail2 =>
      have hmem : a ∈ b :: tail2 := by
        have hb : b = d :=
          hall b (List.mem_cons_of_mem _ (List.mem_cons_self _ _))
        rw [ha, hb]; exact List.mem_cons_self _ _
      rw [List.dedup_cons_of_mem hmem]
      exact ih d (by simp)
        (fun x hx => hall x (List.mem_cons_of_mem _ hx))

theorem planForProduct_skip {today : Nat} {prod : String} {cat : List Layer}
    {sub : List LatestRow} (hne : sub ≠ [])
    (hall : ∀ r ∈ sub, r.date = today) :
    planForProduct today prod cat sub = .ok none := by
  have hmap : (sub.map fun r => r.date) ≠ [] := by
    cases sub with
    | nil => cases hne rfl
    | cons r l => simp
  have hall2 : ∀ x ∈ (sub.map fun r => r.date), x = today := by
    intro x hx
    rcases List.mem_map.mp hx with ⟨r, hr, rfl⟩
    exact hall r hr
  have hd := dedup_all_eq _ today hmap hall2
  simp only [planForProduct]
  rw [hd]
  simp

theorem planProducts_filter_skip (today : Nat) (catalog : String → List Layer)
    (missing : List LatestRow) (p : String)
    (hall : ∀ r ∈ missing, r.platform = p → r.date = today) :
    ∀ (qs : List String), (∀ q ∈ qs, q ∈ missing.map fun r => r.platform) →
      planProducts today catalog (missing.filter fun r => !(r.platform == p))
        (qs.filter fun q => !(q == p)) =
      planProducts today catalog missing qs := by
  intro qs
  induction qs with
  | nil => intro _; rfl
  | cons q0 rest ih =>
    intro hq
    have hrest := ih (fun q hm => hq q (List.mem_cons_of_mem _ hm))
    cases hq0 : q0 == p with
    | true =>
      have hq0eq : q0 = p := by simpa using hq0
      subst hq0eq
      have hp0 := hq q0 (List.mem_cons_self _ _)
      rcases List.mem_map.mp hp0 with ⟨r, hr, hrp⟩
      have hrf : r ∈ missing.filter fun r2 => r2.platform == q0 :=
        List.mem_filter.mpr ⟨hr, by simp [hrp]⟩
      have hsub_ne : (missing.filter fun r2 => r2.platform == q0) ≠ [] := by
        intro hnil; rw [hnil] at hrf; cases hrf
      have hall_sub :
          ∀ r2 ∈ (missing.filter fun r3 => r3.platform == q0),
            r2.date = today := by
        intro r2 hr2
        have h2 := List.mem_filter.mp hr2
        exact hall r2 h2.1 (by simpa using h2.2)
      have hplan := @planForProduct_skip today q0 (catalog q0) _
        hsub_ne hall_sub
      have hdrop : ((q0 :: rest).filter fun q => !(q == q0)) =
          rest.filter fun q => !(q == q0) := by
        simp [List.filter_cons]
      rw [hdrop, hrest, planProducts, hplan]
    | false =>
      have hkeep : ((q0 :: rest).filter fun q => !(q == p)) =
          q0 :: rest.filter fun q => !(q == p) := by
        simp [List.filter_cons, hq0]
      rw [hkeep]
      simp only [planProducts]
      rw [filter_platform_eq hq0, hrest]

/-- C10: a platform whose resumption date (last stored date plus one day)
equals today contributes no task — `start_missing_tasks` behaves exactly as
if that platform's rows were absent from the latest-date table, so the skip
also cannot affect the tasks planned for the other platforms. -/
theorem start_missing_tasks_zero_day_skip (today : Nat)
    (catalog : String → List Layer) (latest : List LatestRow) (p : String)
    (hp : ∀ r ∈ latest, r.platform = p → r.date + 1 = today) :
    startMissingTasks today catalog latest =
      startMissingTasks today catalog
        (latest.filter fun r => !(r.platform == p)) := by
  show planProducts today catalog (find_missing_data latest)
      (((find_missing_data latest).map fun r => r.platform).dedup) =
    planProducts today catalog
      (find_missing_data (latest.filter fun r => !(r.platform == p)))
      (((find_missing_data (latest.filter fun r => !(r.platform == p))).map
          fun r => r.platform).dedup)
  rw [find_missing_filter, platforms_filter, dedup_filter]
  have hall : ∀ r ∈ find_missing_data latest, r.platform = p →
      r.date = today := by
    intro r hr hrp
    rcases List.mem_map.mp hr with ⟨r0, hr0, rfl⟩
    exact hp r0 hr0 hrp
  exact (planProducts_filter_skip today catalog (find_missing_data latest) p
    hall (((find_missing_data latest).map fun r => r.platform).dedup)
    (fun q hm => List.mem_dedup.mp hm)).symm

/-- Closed instance of C10: with today = 10, platform P last stored date 9
(resumption date 10) and platform Q last stored date 5, the plan is
identical to the plan for the table without P's rows, and Q's task is
still planned. -/
theorem start_missing_tasks_zero_day_skip_witness :
    startMissingTasks 10 catC10 latestC10 =
      startMissingTasks 10 catC10
        (latestC10.filter fun r => !(r.platform == "P")) :=
  start_missing_tasks_zero_day_skip 10 catC10 latestC10 "P" (by decide)

end MesonetSat
